import Mathlib

/-!
Verification of the change classifier / commit-message generator in
scripts/git-workflow.js and of the repository bootstrap script.

The JavaScript string primitives used by the source (split, trim,
substring, endsWith, includes, join) are embedded as executable Lean
functions over the character list underlying a string.  File-system and
git effects (readFileSync, git diff) are modelled by an explicit
environment of partial functions; a read or diff that throws in the
source is a None result here.
-/

namespace GitWorkflow

/-- JS String.prototype.includes, on character lists: does the second list
occur contiguously inside the first? -/
def containsSub : List Char → List Char → Bool
  | [], pat => pat.isEmpty
  | c :: t, pat => pat.isPrefixOf (c :: t) || containsSub t pat

/-- JS s.includes(pat). -/
def jsIncludes (s pat : String) : Bool :=
  containsSub s.data pat.data

/-- JS s.startsWith(pat). -/
def jsStartsWith (s pat : String) : Bool :=
  pat.data.isPrefixOf s.data

/-- JS s.endsWith(pat). -/
def jsEndsWith (s pat : String) : Bool :=
  pat.data.isSuffixOf s.data

/-- JS String.prototype.trim on a character list: whitespace removed from
both ends. -/
def jsTrimList (l : List Char) : List Char :=
  ((l.dropWhile Char.isWhitespace).reverse.dropWhile Char.isWhitespace).reverse

/-- JS s.trim(). -/
def jsTrim (s : String) : String :=
  String.mk (jsTrimList s.data)

/-- JS String.prototype.split with a one-character separator, on character
lists.  Always returns a non-empty list of components. -/
def splitOnCharList (sep : Char) : List Char → List (List Char)
  | [] => [[]]
  | c :: cs =>
    let r := splitOnCharList sep cs
    if c = sep then [] :: r else (c :: r.headD []) :: r.tail

/-- JS s.split(sep) for a one-character separator string. -/
def jsSplit (sep : Char) (s : String) : List String :=
  (splitOnCharList sep s.data).map String.mk

/-- JS Array.prototype.join: interleave the separator between elements. -/
def joinSep (sep : String) : List String → String
  | [] => ""
  | [x] => x
  | x :: y :: rest => x ++ sep ++ joinSep sep (y :: rest)

/-- The ambient effects used by git-workflow.js: fs.readFileSync and
git diff output per file.  A None models the call throwing. -/
structure Env where
  readFile : String → Option String
  gitDiff : String → Option String

/-- componentName in analyzeNewFile: fileName.split("/").pop()
.replace of a trailing .tsx or .jsx extension. -/
def componentNameOf (fileName : String) : String :=
  let base := (jsSplit '/' fileName).getLastD ""
  if jsEndsWith base ".tsx" || jsEndsWith base ".jsx" then base.dropRight 4 else base

/-- analyzeNewFile from git-workflow.js: description heuristic for an
added file.  The catch branch of the source is the None case. -/
def analyzeNewFile (env : Env) (fileName : String) : String :=
  match env.readFile fileName with
  | none => "new file"
  | some content =>
    if jsEndsWith fileName ".tsx" || jsEndsWith fileName ".jsx" then
      if jsIncludes content "export default function"
          || jsIncludes content "export default class" then
        "new React component: " ++ componentNameOf fileName
      else
        "new React component"
    else if jsEndsWith fileName ".ts" || jsEndsWith fileName ".js" then
      if jsIncludes fileName "config" then "new configuration file"
      else if jsIncludes fileName "script" then "new utility script"
      else "new TypeScript/JavaScript file"
    else if jsEndsWith fileName ".css" then "new stylesheet"
    else if jsEndsWith fileName ".json" then "new configuration"
    else if jsEndsWith fileName ".md" then "new documentation"
    else "new file"

/-- analyzeModifiedFile from git-workflow.js: description heuristic for a
modified file, keyed on the diff text.  The catch branch is None. -/
def analyzeModifiedFile (env : Env) (fileName : String) : String :=
  match env.gitDiff fileName with
  | none => "update file"
  | some diff =>
    if jsEndsWith fileName ".tsx" || jsEndsWith fileName ".jsx" then
      if jsIncludes diff "className=" then "update component styling"
      else if jsIncludes diff "import " then "update component imports"
      else if jsIncludes diff "export default" then "update component structure"
      else if jsIncludes diff "//" || jsIncludes diff "/*" then
        "update component comments"
      else "update React component"
    else if jsEndsWith fileName ".json" then
      if jsIncludes diff "\"dependencies\"" then "update dependencies"
      else if jsIncludes diff "\"scripts\"" then "update npm scripts"
      else "update configuration"
    else if jsEndsWith fileName ".css" then "update styles"
    else if jsEndsWith fileName ".md" then "update documentation"
    else if jsEndsWith fileName ".ts" || jsEndsWith fileName ".js" then
      "update code logic"
    else "update file content"

/-- The changes object of analyzeFileChanges once its four category keys
exist: one ordered path list per category. -/
structure ChangeSet where
  added : List String
  modified : List String
  deleted : List String
  renamed : List String
deriving DecidableEq

/-- One iteration of the forEach over status lines in analyzeFileChanges:
slice the two-character code, trim it, slice the path from index 3, and
route by the source's exact string comparisons.  The descriptions object
is an association list where a later entry for the same key wins. -/
def processLine (env : Env) (acc : ChangeSet × List (String × String))
    (line : String) : ChangeSet × List (String × String) :=
  let statusCode := jsTrim (line.take 2)
  let fileName := line.drop 3
  if statusCode = "A" ∨ statusCode = "A " then
    ({ acc.1 with added := acc.1.added ++ [fileName] },
      acc.2 ++ [(fileName, analyzeNewFile env fileName)])
  else if statusCode = "M" ∨ statusCode = " M" then
    ({ acc.1 with modified := acc.1.modified ++ [fileName] },
      acc.2 ++ [(fileName, analyzeModifiedFile env fileName)])
  else if statusCode = "D" ∨ statusCode = " D" then
    ({ acc.1 with deleted := acc.1.deleted ++ [fileName] },
      acc.2 ++ [(fileName, "deleted file")])
  else if statusCode = "R" ∨ statusCode = "R " then
    ({ acc.1 with renamed := acc.1.renamed ++ [fileName] },
      acc.2 ++ [(fileName, "renamed file")])
  else acc

/-- The non-blank status lines: status.split newline, keeping lines whose
trim is non-empty. -/
def statusLines (status : String) : List String :=
  (jsSplit '\n' status).filter (fun l => jsTrim l != "")

/-- Result of analyzeFileChanges.  changes = none is the source returning
the bare object with no category keys at all (empty status); otherwise the
four keys are present. -/
structure AnalyzeResult where
  changes : Option ChangeSet
  descriptions : List (String × String)

/-- analyzeFileChanges from git-workflow.js, as a function of the trimmed
porcelain status text returned by getGitStatus. -/
def analyzeFileChanges (env : Env) (status : String) : AnalyzeResult :=
  if status = "" then ⟨none, []⟩
  else
    let lines := statusLines status
    let p := lines.foldl (processLine env) (⟨[], [], [], []⟩, [])
    ⟨some p.1, p.2⟩

/-- Reading descriptions[file] in generateCommitMessage: the last write to
that key wins; a missing key renders as the empty string in a join. -/
def lookupDesc (ds : List (String × String)) (file : String) : String :=
  ((ds.filter (fun p => p.1 == file)).getLastD (file, "")).2

/-- The added summary line of generateCommitMessage: count, pluralized
noun, and the per-file descriptions when the category has at most 2
files. -/
def addedLine (cs : ChangeSet) (ds : List (String × String)) : String :=
  let base := "✨ Add " ++ toString cs.added.length ++ " new file"
    ++ (if cs.added.length > 1 then "s" else "")
  if cs.added.length ≤ 2 then
    base ++ ": " ++ joinSep ", " (cs.added.map (lookupDesc ds))
  else base

/-- The modified summary line of generateCommitMessage. -/
def modifiedLine (cs : ChangeSet) (ds : List (String × String)) : String :=
  let base := "🔧 Update " ++ toString cs.modified.length ++ " file"
    ++ (if cs.modified.length > 1 then "s" else "")
  if cs.modified.length ≤ 2 then
    base ++ ": " ++ joinSep ", " (cs.modified.map (lookupDesc ds))
  else base

/-- The deleted summary line of generateCommitMessage: count only, never
per-file descriptions. -/
def deletedLine (cs : ChangeSet) : String :=
  "🗑️ Remove " ++ toString cs.deleted.length ++ " file"
    ++ (if cs.deleted.length > 1 then "s" else "")

/-- The renamed summary line of generateCommitMessage: count only, never
per-file descriptions. -/
def renamedLine (cs : ChangeSet) : String :=
  "🔄 Rename " ++ toString cs.renamed.length ++ " file"
    ++ (if cs.renamed.length > 1 then "s" else "")

/-- The message accumulation of generateCommitMessage: each non-empty
category appends its line, separated from a non-empty running message by
a newline; an empty final message falls back to the literal. -/
def buildMessage (cs : ChangeSet) (ds : List (String × String)) : String :=
  let message : String := ""
  let message :=
    if cs.added.length > 0 then message ++ addedLine cs ds else message
  let message :=
    if cs.modified.length > 0 then
      (if message = "" then message else message ++ "\n") ++ modifiedLine cs ds
    else message
  let message :=
    if cs.deleted.length > 0 then
      (if message = "" then message else message ++ "\n") ++ deletedLine cs
    else message
  let message :=
    if cs.renamed.length > 0 then
      (if message = "" then message else message ++ "\n") ++ renamedLine cs
    else message
  if message = "" then "Update project files" else message

/-- generateCommitMessage from git-workflow.js: the empty-keys sentinel,
otherwise the assembled message. -/
def generateCommitMessage (env : Env) (status : String) : String :=
  let r := analyzeFileChanges env status
  match r.changes with
  | none => "No changes to commit"
  | some cs => buildMessage cs r.descriptions

/-- The routing rule as amended from the spec: a line is routed by exact
equality of its trimmed two-character code with "A", "M", "D" or "R"
(leading or trailing blanks disappear in the trim); any other trimmed
code, for example "AM", matches no comparison and the line is dropped. -/
def routeLineSpec (env : Env) (acc : ChangeSet × List (String × String))
    (line : String) : ChangeSet × List (String × String) :=
  let c := jsTrim (line.take 2)
  let f := line.drop 3
  if c = "A" then
    ({ acc.1 with added := acc.1.added ++ [f] },
      acc.2 ++ [(f, analyzeNewFile env f)])
  else if c = "M" then
    ({ acc.1 with modified := acc.1.modified ++ [f] },
      acc.2 ++ [(f, analyzeModifiedFile env f)])
  else if c = "D" then
    ({ acc.1 with deleted := acc.1.deleted ++ [f] },
      acc.2 ++ [(f, "deleted file")])
  else if c = "R" then
    ({ acc.1 with renamed := acc.1.renamed ++ [f] },
      acc.2 ++ [(f, "renamed file")])
  else acc

/-- The summary lines of the assembled message per the amended spec: one
line per non-empty category in the fixed order added, modified, deleted,
renamed. -/
def specLines (cs : ChangeSet) (ds : List (String × String)) : List String :=
  (if cs.added.length > 0 then [addedLine cs ds] else []) ++
  (if cs.modified.length > 0 then [modifiedLine cs ds] else []) ++
  (if cs.deleted.length > 0 then [deletedLine cs] else []) ++
  (if cs.renamed.length > 0 then [renamedLine cs] else [])

/-- The assembler per the amended spec: the summary lines joined with
newline separators, with per-file detail only on the added and modified
lines (and there only when the category has at most 2 files); when no
category produced a line, the literal fallback. -/
def assembleMessageSpec (cs : ChangeSet) (ds : List (String × String)) : String :=
  if (specLines cs ds).isEmpty then "Update project files"
  else joinSep "\n" (specLines cs ds)

/-- The last path component of a file name, per the spec wording: the
longest slash-free tail of the name. -/
def lastComponent (f : String) : String :=
  String.mk ((f.data.reverse.takeWhile (fun c => c != '/')).reverse)

/-- The basename without its four-character component-script extension,
per the spec wording. -/
def basenameNoExt (f : String) : String :=
  (lastComponent f).dropRight 4

/-- Does a status line match one of the eight literal code comparisons of
analyzeFileChanges? -/
def recognizedCode (line : String) : Bool :=
  let c := jsTrim (line.take 2)
  c == "A" || c == "A " || c == "M" || c == " M"
    || c == "D" || c == " D" || c == "R" || c == "R "

/-- Environment in which every read and every diff fails. -/
def env0 : Env := ⟨fun _ => none, fun _ => none⟩

/-- Environment with a readable component file and a styling-marker
diff. -/
def envRead : Env :=
  ⟨fun _ => some "export default function X", fun _ => some "className= import x"⟩

/-- Environment with readable marker-free content and a marker-free
diff. -/
def envPlain : Env := ⟨fun _ => some "hello", fun _ => some "+ x"⟩

/-- Environment for the end-to-end scenario: a marker-free component file
and a dependencies-section diff. -/
def envDemo : Env :=
  ⟨fun _ => some "const Button = 1", fun _ => some "+  \"dependencies\": x"⟩

end GitWorkflow

namespace Bootstrap

/-- The ambient conditions probed by the bootstrap script: whether the
four external commands it shells out to succeed. -/
structure BootstrapEnv where
  ghVersionOk : Bool
  ghAuthOk : Bool
  gitDirExists : Bool
  gitInitOk : Bool

/-- checkGitHubCLI: does gh --version succeed? -/
def checkGitHubCLI (env : BootstrapEnv) : Bool := env.ghVersionOk

/-- checkGitHubAuth: does gh auth status succeed? -/
def checkGitHubAuth (env : BootstrapEnv) : Bool := env.ghAuthOk

/-- Observable outcome of the bootstrap main: the process exit status and
whether createGitHubRepo was reached.  createGitHubRepo catches its own
failure and the process still exits 0 there. -/
structure BootstrapOutcome where
  exitCode : Nat
  repoCreateAttempted : Bool
deriving DecidableEq

/-- main of the bootstrap script: CLI missing is fatal, unauthenticated is
fatal, a failing git init is fatal; otherwise the repo creation is
attempted and the process exits 0. -/
def bootstrapMain (env : BootstrapEnv) : BootstrapOutcome :=
  if !checkGitHubCLI env then ⟨1, false⟩
  else if !checkGitHubAuth env then ⟨1, false⟩
  else if !env.gitDirExists then
    if !env.gitInitOk then ⟨1, false⟩ else ⟨0, true⟩
  else ⟨0, true⟩

end Bootstrap

namespace GitWorkflow

theorem append_eq_empty_iff (s t : String) : s ++ t = "" ↔ s = "" ∧ t = "" := by
  constructor
  · intro h
    have hd := congrArg String.data h
    rw [String.data_append] at hd
    rcases List.append_eq_nil.mp hd with ⟨h1, h2⟩
    exact ⟨String.ext h1, String.ext h2⟩
  · rintro ⟨rfl, rfl⟩
    rfl

theorem head?_append_left {s t : String} {c : Char}
    (h : s.data.head? = some c) : (s ++ t).data.head? = some c := by
  rw [String.data_append, List.head?_append, h]
  rfl

theorem head?_dropWhile_eq_false {α : Type} {p : α → Bool} {l : List α} {c : α}
    (h : (l.dropWhile p).head? = some c) : p c = false := by
  have hw := List.head?_dropWhile_not p l
  rw [h] at hw
  exact hw

theorem jsTrimList_getLast?_not_ws {l : List Char} {c : Char}
    (h : (jsTrimList l).getLast? = some c) : c.isWhitespace = false := by
  unfold jsTrimList at h
  rw [List.getLast?_reverse] at h
  exact head?_dropWhile_eq_false h

theorem jsTrimList_isPre (l : List Char) :
    jsTrimList l <+: l.dropWhile Char.isWhitespace := by
  unfold jsTrimList
  rw [← List.reverse_suffix]
  simpa using List.dropWhile_suffix (l := (l.dropWhile Char.isWhitespace).reverse)
    Char.isWhitespace

theorem jsTrimList_head?_not_ws {l : List Char} {c : Char}
    (h : (jsTrimList l).head? = some c) : c.isWhitespace = false := by
  obtain ⟨t, ht⟩ := jsTrimList_isPre l
  apply head?_dropWhile_eq_false (l := l) (p := Char.isWhitespace)
  rw [← ht, List.head?_append, h]
  rfl

theorem jsTrim_ne_trailing {s t : String} {c : Char}
    (hl : t.data.getLast? = some c) (hws : c.isWhitespace = true) :
    jsTrim s ≠ t := by
  intro h
  have hd : jsTrimList s.data = t.data := congrArg String.data h
  rw [← hd] at hl
  rw [jsTrimList_getLast?_not_ws hl] at hws
  exact Bool.false_ne_true hws

theorem jsTrim_ne_leading {s t : String} {c : Char}
    (hl : t.data.head? = some c) (hws : c.isWhitespace = true) :
    jsTrim s ≠ t := by
  intro h
  have hd : jsTrimList s.data = t.data := congrArg String.data h
  rw [← hd] at hl
  rw [jsTrimList_head?_not_ws hl] at hws
  exact Bool.false_ne_true hws

/-- C2 (amended): per status line, analyzeFileChanges strips the
two-character code and the path and routes by exact equality of the
trimmed code with "A", "M", "D" or "R" (leading or trailing space
variants are absorbed by the trim); a line whose trimmed code matches
none of the source's eight literal comparisons is silently dropped.
Codes merely starting with one of those letters, such as "AM", are
dropped, per the counterexample. -/
theorem processLine_eq_routeLineSpec (env : Env)
    (acc : ChangeSet × List (String × String)) (line : String) :
    processLine env acc line = routeLineSpec env acc line := by
  have hA : jsTrim (line.take 2) ≠ "A " :=
    jsTrim_ne_trailing (c := ' ') (by decide) (by decide)
  have hM : jsTrim (line.take 2) ≠ " M" :=
    jsTrim_ne_leading (c := ' ') (by decide) (by decide)
  have hD : jsTrim (line.take 2) ≠ " D" :=
    jsTrim_ne_leading (c := ' ') (by decide) (by decide)
  have hR : jsTrim (line.take 2) ≠ "R " :=
    jsTrim_ne_trailing (c := ' ') (by decide) (by decide)
  unfold processLine routeLineSpec
  simp only [hA, hM, hD, hR, or_false]

theorem addedLine_ne_empty (cs : ChangeSet) (ds : List (String × String)) :
    addedLine cs ds ≠ "" := by
  have hlit : ("✨ Add " : String) ≠ "" := by decide
  unfold addedLine
  split_ifs <;> simp [append_eq_empty_iff, hlit]

theorem modifiedLine_ne_empty (cs : ChangeSet) (ds : List (String × String)) :
    modifiedLine cs ds ≠ "" := by
  have hlit : ("🔧 Update " : String) ≠ "" := by decide
  unfold modifiedLine
  split_ifs <;> simp [append_eq_empty_iff, hlit]

theorem deletedLine_ne_empty (cs : ChangeSet) : deletedLine cs ≠ "" := by
  have hlit : ("🗑️ Remove " : String) ≠ "" := by decide
  unfold deletedLine
  simp [append_eq_empty_iff, hlit]

theorem renamedLine_ne_empty (cs : ChangeSet) : renamedLine cs ≠ "" := by
  have hlit : ("🔄 Rename " : String) ≠ "" := by decide
  unfold renamedLine
  simp [append_eq_empty_iff, hlit]

theorem buildMessage_eq_assembleSpec (cs : ChangeSet) (ds : List (String × String)) :
    buildMessage cs ds = assembleMessageSpec cs ds := by
  unfold buildMessage assembleMessageSpec specLines
  by_cases ha : cs.added.length > 0 <;> by_cases hm : cs.modified.length > 0 <;>
    by_cases hd : cs.deleted.length > 0 <;> by_cases hr : cs.renamed.length > 0 <;>
    simp [ha, hm, hd, hr, joinSep, append_eq_empty_iff,
      addedLine_ne_empty, modifiedLine_ne_empty, deletedLine_ne_empty,
      renamedLine_ne_empty, String.append_assoc]

theorem addedLine_head (cs : ChangeSet) (ds : List (String × String)) :
    (addedLine cs ds).data.head? = some '✨' := by
  unfold addedLine
  split_ifs <;>
    (repeat apply head?_append_left) <;> decide

theorem modifiedLine_head (cs : ChangeSet) (ds : List (String × String)) :
    (modifiedLine cs ds).data.head? = some '🔧' := by
  unfold modifiedLine
  split_ifs <;>
    (repeat apply head?_append_left) <;> decide

theorem deletedLine_head (cs : ChangeSet) :
    (deletedLine cs).data.head? = some '🗑' := by
  unfold deletedLine
  split_ifs <;>
    (repeat apply head?_append_left) <;> decide

theorem renamedLine_head (cs : ChangeSet) :
    (renamedLine cs).data.head? = some '🔄' := by
  unfold renamedLine
  split_ifs <;>
    (repeat apply head?_append_left) <;> decide

theorem specLines_head_not_N (cs : ChangeSet) (ds : List (String × String)) :
    ∀ l ∈ specLines cs ds, ∃ c, l.data.head? = some c ∧ c ≠ 'N' := by
  intro l hl
  unfold specLines at hl
  simp only [List.mem_append] at hl
  rcases hl with ((h | h) | h) | h <;> [skip; skip; skip; skip] <;>
    first
    | (rw [List.mem_ite_nil_right] at h
       rcases h with ⟨-, h⟩
       rw [List.mem_singleton] at h
       subst h
       first
       | exact ⟨'✨', addedLine_head cs ds, by decide⟩
       | exact ⟨'🔧', modifiedLine_head cs ds, by decide⟩
       | exact ⟨'🗑', deletedLine_head cs, by decide⟩
       | exact ⟨'🔄', renamedLine_head cs, by decide⟩)

theorem joinSep_head {x : String} {xs : List String} {c : Char}
    (h : x.data.head? = some c) :
    (joinSep "\n" (x :: xs)).data.head? = some c := by
  cases xs with
  | nil => simpa [joinSep] using h
  | cons y ys =>
    show ((x ++ "\n") ++ joinSep "\n" (y :: ys)).data.head? = some c
    exact head?_append_left (head?_append_left h)

theorem assembleSpec_ne_sentinel (cs : ChangeSet) (ds : List (String × String)) :
    assembleMessageSpec cs ds ≠ "No changes to commit" := by
  unfold assembleMessageSpec
  cases hL : specLines cs ds with
  | nil => simp [hL]
  | cons x xs =>
    simp only [hL, List.isEmpty_cons, if_false, Bool.false_eq_true]
    intro heq
    obtain ⟨c, hc, hcN⟩ :=
      specLines_head_not_N cs ds x (hL ▸ List.mem_cons_self x xs)
    have hhead := congrArg (fun s => s.data.head?) heq
    simp only at hhead
    rw [joinSep_head hc] at hhead
    have : c = 'N' := by
      have : some c = some 'N' := by
        rw [hhead]
        decide
      exact Option.some.inj this
    exact hcN this

theorem foldl_processLine_all_added (env : Env) :
    ∀ (lines : List String) (acc : ChangeSet × List (String × String)),
      (∀ l ∈ lines, jsTrim (l.take 2) = "A") →
      (lines.foldl (processLine env) acc).1
        = { acc.1 with added := acc.1.added ++ lines.map (fun l => l.drop 3) } := by
  intro lines
  induction lines with
  | nil =>
    intro acc h
    simp
  | cons l ls ih =>
    intro acc h
    have hl : jsTrim (l.take 2) = "A" := h l (List.mem_cons_self l ls)
    have hRest : ∀ x ∈ ls, jsTrim (x.take 2) = "A" :=
      fun x hx => h x (List.mem_cons_of_mem l hx)
    rw [List.foldl_cons, ih _ hRest]
    unfold processLine
    simp [hl, List.append_assoc]

theorem processLine_fst_env (env env' : Env)
    (acc acc' : ChangeSet × List (String × String)) (h : acc.1 = acc'.1)
    (line : String) :
    (processLine env acc line).1 = (processLine env' acc' line).1 := by
  unfold processLine
  dsimp only
  split_ifs <;> simp [h]

theorem foldl_processLine_fst_env (env env' : Env) :
    ∀ (lines : List String) (acc acc' : ChangeSet × List (String × String)),
      acc.1 = acc'.1 →
      (lines.foldl (processLine env) acc).1
        = (lines.foldl (processLine env') acc').1 := by
  intro lines
  induction lines with
  | nil => intro _ _ h; exact h
  | cons l ls ih =>
    intro acc acc' h
    rw [List.foldl_cons, List.foldl_cons]
    exact ih _ _ (processLine_fst_env env env' acc acc' h l)

theorem processLine_unrecognized (env : Env)
    (acc : ChangeSet × List (String × String)) (l : String)
    (h : recognizedCode l = false) :
    processLine env acc l = acc := by
  unfold recognizedCode at h
  simp only [Bool.or_eq_false_iff, beq_eq_false_iff_ne, ne_eq] at h
  obtain ⟨⟨⟨⟨⟨⟨⟨h1, h2⟩, h3⟩, h4⟩, h5⟩, h6⟩, h7⟩, h8⟩ := h
  unfold processLine
  simp [h1, h2, h3, h4, h5, h6, h7, h8]

theorem foldl_processLine_unrecognized (env : Env) :
    ∀ (lines : List String) (acc : ChangeSet × List (String × String)),
      (∀ l ∈ lines, recognizedCode l = false) →
      lines.foldl (processLine env) acc = acc := by
  intro lines
  induction lines with
  | nil => intro _ _; rfl
  | cons l ls ih =>
    intro acc h
    rw [List.foldl_cons, processLine_unrecognized env acc l (h l (List.mem_cons_self l ls))]
    exact ih _ fun x hx => h x (List.mem_cons_of_mem l hx)

theorem takeWhile_append_single_neg {α : Type} {p : α → Bool} {a : α}
    (h : p a = false) (l : List α) :
    (l ++ [a]).takeWhile p = l.takeWhile p := by
  rw [List.takeWhile_append]
  split
  · rename_i hlen
    have heq : l.takeWhile p = l := (List.takeWhile_prefix p).eq_of_length hlen
    have h2 : [a].takeWhile p = [] := by simp [List.takeWhile_cons, h]
    rw [h2, List.append_nil, heq]
  · rfl

theorem takeWhile_append_of_not_all {α : Type} {p : α → Bool} {l : List α}
    (h : l.all p = false) (l2 : List α) :
    (l ++ l2).takeWhile p = l.takeWhile p := by
  rw [List.takeWhile_append]
  split
  · rename_i hlen
    have heq : l.takeWhile p = l := (List.takeWhile_prefix p).eq_of_length hlen
    have hall : l.all p = true :=
      List.all_eq_true.mpr (List.takeWhile_eq_self_iff.mp heq)
    rw [hall] at h
    exact Bool.noConfusion h
  · rfl

theorem splitOnCharList_ne_nil (sep : Char) (l : List Char) :
    splitOnCharList sep l ≠ [] := by
  cases l with
  | nil => simp [splitOnCharList]
  | cons c cs =>
    unfold splitOnCharList
    dsimp only
    split <;> simp

theorem splitOnCharList_spec (sep : Char) :
    ∀ l : List Char,
      (splitOnCharList sep l).getLastD []
          = (l.reverse.takeWhile (fun c => c != sep)).reverse
        ∧ ((splitOnCharList sep l).length = 1
            ↔ l.all (fun c => c != sep) = true) := by
  intro l
  induction l with
  | nil =>
    exact ⟨rfl, by simp [splitOnCharList]⟩
  | cons c cs ih =>
    obtain ⟨ih1, ih2⟩ := ih
    by_cases hc : c = sep
    · subst hc
      have hstep : splitOnCharList c (c :: cs) = [] :: splitOnCharList c cs := by
        simp [splitOnCharList]
      have hr := splitOnCharList_ne_nil c cs
      constructor
      · rw [hstep, List.getLastD_cons, ih1, List.reverse_cons,
          takeWhile_append_single_neg (by simp)]
      · rw [hstep]
        simp [List.length_eq_zero, hr]
    · have hp : (c != sep) = true := by simp [hc]
      have hr := splitOnCharList_ne_nil sep cs
      cases hsplit : splitOnCharList sep cs with
      | nil => exact absurd hsplit hr
      | cons h t =>
        have hstep : splitOnCharList sep (c :: cs) = (c :: h) :: t := by
          simp only [splitOnCharList]
          simp [hc, hsplit]
        rw [hsplit] at ih1 ih2
        cases t with
        | nil =>
          have hall : cs.all (fun x => x != sep) = true := ih2.mp (by simp)
          have htw : cs.reverse.takeWhile (fun x => x != sep) = cs.reverse :=
            List.takeWhile_eq_self_iff.mpr (by
              intro x hx
              exact List.all_eq_true.mp hall x (List.mem_reverse.mp hx))
          have hh : h = cs := by simpa [htw] using ih1
          subst hh
          constructor
          · rw [hstep, List.reverse_cons,
              List.takeWhile_append_of_pos (by
                intro a ha
                exact List.all_eq_true.mp hall a (List.mem_reverse.mp ha))]
            simp [List.takeWhile_cons, hp]
          · rw [hstep]
            simp [List.all_cons, hp, hall]
        | cons t0 ts =>
          have hlen : (h :: t0 :: ts).length ≠ 1 := by simp
          have hnall : cs.all (fun x => x != sep) = false := by
            cases hAll : cs.all (fun x => x != sep)
            · rfl
            · exact absurd (ih2.mpr hAll) hlen
          constructor
          · rw [hstep]
            have hLHS : ((c :: h) :: t0 :: ts).getLastD []
                = (h :: t0 :: ts).getLastD [] := by
              simp [List.getLastD_cons]
            rw [hLHS, ih1, List.reverse_cons,
              takeWhile_append_of_not_all (by simpa using hnall)]
          · rw [hstep]
            simp [List.all_cons, hnall]

theorem getLastD_map {α β : Type} (f : α → β) :
    ∀ (l : List α) (d : α), (l.map f).getLastD (f d) = f (l.getLastD d) := by
  intro l
  induction l with
  | nil => intro d; rfl
  | cons a t ih =>
    intro d
    simp only [List.map_cons, List.getLastD_cons]
    exact ih a

theorem pop_eq_lastComponent (f : String) :
    (jsSplit '/' f).getLastD "" = lastComponent f := by
  unfold jsSplit lastComponent
  rw [show ("" : String) = String.mk [] from rfl, getLastD_map String.mk,
    (splitOnCharList_spec '/' f.data).1]

theorem jsEndsWith_lastComponent {f ext : String}
    (hnoslash : ∀ c ∈ ext.data, (c != '/') = true)
    (hext : jsEndsWith f ext = true) :
    jsEndsWith (lastComponent f) ext = true := by
  unfold jsEndsWith at hext ⊢
  rw [List.isSuffixOf_iff_suffix] at hext ⊢
  obtain ⟨t, ht⟩ := hext
  unfold lastComponent
  show ext.data <:+ ((f.data.reverse.takeWhile fun c => c != '/').reverse)
  rw [← ht, List.reverse_append,
    List.takeWhile_append_of_pos (by
      intro a ha
      exact hnoslash a (List.mem_reverse.mp ha)),
    List.reverse_append, List.reverse_reverse]
  exact ⟨_, rfl⟩

theorem componentNameOf_eq_basenameNoExt {f : String}
    (hext : jsEndsWith f ".tsx" = true ∨ jsEndsWith f ".jsx" = true) :
    componentNameOf f = basenameNoExt f := by
  have hbase : (jsEndsWith (lastComponent f) ".tsx"
      || jsEndsWith (lastComponent f) ".jsx") = true := by
    rcases hext with h | h
    · rw [jsEndsWith_lastComponent (by decide) h]
      simp
    · rw [jsEndsWith_lastComponent (by decide) h]
      simp
  unfold componentNameOf basenameNoExt
  rw [pop_eq_lastComponent, if_pos hbase]

/-- C1: for every status input whose non-blank lines all carry the
added-file status code (their trimmed two-character code is "A"), the
resulting ChangeSet has empty modified, deleted and renamed sequences and
its added sequence is exactly the listed paths, in input order. -/
theorem analyzeFileChanges_all_added (env : Env) (status : String)
    (hne : status ≠ "")
    (hall : ∀ l ∈ statusLines status, jsTrim (l.take 2) = "A") :
    (analyzeFileChanges env status).changes
      = some { added := (statusLines status).map (fun l => l.drop 3),
               modified := [], deleted := [], renamed := [] } := by
  unfold analyzeFileChanges
  rw [if_neg hne]
  dsimp only
  rw [foldl_processLine_all_added env _ _ hall]
  simp

/-- C1 witness: a two-line all-added status. -/
theorem analyzeFileChanges_all_added_witness :
    (analyzeFileChanges env0 "A  a.txt\nA  b.md").changes
      = some { added := (statusLines "A  a.txt\nA  b.md").map (fun l => l.drop 3),
               modified := [], deleted := [], renamed := [] } :=
  analyzeFileChanges_all_added env0 "A  a.txt\nA  b.md" (by decide) (by decide)

/-- C2 counterexample: the line "AM x.txt" has a status code that starts
with the letter A, yet analyzeFileChanges routes it into no category: the
claimed starts-with routing is false of the code. -/
theorem code_startsWith_A_dropped :
    jsStartsWith (jsTrim ("AM x.txt".take 2)) "A" = true ∧
    (analyzeFileChanges env0 "AM x.txt").changes = some ⟨[], [], [], []⟩ :=
  ⟨by decide, by decide⟩

/-- C3 counterexample: one deleted file, a category of size 1 (at most 2),
yet the deleted summary line carries no colon and no per-file
description, so the claimed detail-iff-at-most-2 rule fails for the
deleted category. -/
theorem deleted_category_no_detail :
    (analyzeFileChanges env0 "D  foo.txt").changes
      = some ⟨[], [], ["foo.txt"], []⟩ ∧
    generateCommitMessage env0 "D  foo.txt" = "🗑️ Remove 1 file" ∧
    jsIncludes (generateCommitMessage env0 "D  foo.txt") ":" = false :=
  ⟨by decide, by decide, by decide⟩

/-- C3 (amended): the assembled message is one count-bearing, correctly
pluralized summary line per non-empty category in the fixed order added,
modified, deleted, renamed, joined with newlines; the added and modified
lines append the colon-separated per-file descriptions exactly when
their category has at most 2 files, while the deleted and renamed lines
always state only the count. -/
theorem generateCommitMessage_assembles (env : Env) (status : String)
    (cs : ChangeSet)
    (h : (analyzeFileChanges env status).changes = some cs) :
    generateCommitMessage env status
      = assembleMessageSpec cs (analyzeFileChanges env status).descriptions := by
  unfold generateCommitMessage
  dsimp only
  rw [h]
  exact buildMessage_eq_assembleSpec cs _

/-- C3 witness: one added file. -/
theorem generateCommitMessage_assembles_witness :
    generateCommitMessage env0 "A  x.css"
      = assembleMessageSpec ⟨["x.css"], [], [], []⟩
          (analyzeFileChanges env0 "A  x.css").descriptions :=
  generateCommitMessage_assembles env0 "A  x.css" ⟨["x.css"], [], [], []⟩
    (by decide)

/-- C4: for an added component-script file (.tsx or .jsx) whose readable
content carries an export-default function or class marker, analyzeNewFile
returns exactly "new React component: " followed by the basename without
its extension; without such a marker it returns exactly
"new React component". -/
theorem analyzeNewFile_component_label (env : Env) (f content : String)
    (hread : env.readFile f = some content)
    (hext : jsEndsWith f ".tsx" = true ∨ jsEndsWith f ".jsx" = true) :
    ((jsIncludes content "export default function" = true
        ∨ jsIncludes content "export default class" = true) →
      analyzeNewFile env f = "new React component: " ++ basenameNoExt f) ∧
    (jsIncludes content "export default function" = false →
      jsIncludes content "export default class" = false →
      analyzeNewFile env f = "new React component") := by
  have hb : (jsEndsWith f ".tsx" || jsEndsWith f ".jsx") = true := by
    rcases hext with h | h <;> simp [h]
  constructor
  · intro hmark
    have hm : (jsIncludes content "export default function"
        || jsIncludes content "export default class") = true := by
      rcases hmark with h | h <;> simp [h]
    unfold analyzeNewFile
    rw [hread]
    simp [hb, hm, componentNameOf_eq_basenameNoExt hext]
  · intro h1 h2
    unfold analyzeNewFile
    rw [hread]
    simp [hb, h1, h2]

/-- C4 witness: marker and no-marker cases on src/Button.tsx. -/
theorem analyzeNewFile_component_label_witness :
    analyzeNewFile envRead "src/Button.tsx"
      = "new React component: " ++ basenameNoExt "src/Button.tsx" ∧
    analyzeNewFile envPlain "src/Button.tsx" = "new React component" :=
  ⟨(analyzeNewFile_component_label envRead "src/Button.tsx"
      "export default function X" rfl (Or.inl (by decide))).1
      (Or.inl (by decide)),
   (analyzeNewFile_component_label envPlain "src/Button.tsx" "hello" rfl
      (Or.inl (by decide))).2 (by decide) (by decide)⟩

/-- C5: on a modified component-script file, analyzeModifiedFile checks
the diff markers first-match-wins in the order styling attribute, import,
export default, comments, family default; in particular a diff with both
the styling and the import marker yields the styling label. -/
theorem analyzeModifiedFile_marker_order (env : Env) (f diff : String)
    (hdiff : env.gitDiff f = some diff)
    (hext : jsEndsWith f ".tsx" = true ∨ jsEndsWith f ".jsx" = true) :
    (jsIncludes diff "className=" = true →
      analyzeModifiedFile env f = "update component styling") ∧
    (jsIncludes diff "className=" = false →
      jsIncludes diff "import " = true →
      analyzeModifiedFile env f = "update component imports") ∧
    (jsIncludes diff "className=" = false →
      jsIncludes diff "import " = false →
      jsIncludes diff "export default" = true →
      analyzeModifiedFile env f = "update component structure") ∧
    (jsIncludes diff "className=" = false →
      jsIncludes diff "import " = false →
      jsIncludes diff "export default" = false →
      (jsIncludes diff "//" || jsIncludes diff "/*") = true →
      analyzeModifiedFile env f = "update component comments") ∧
    (jsIncludes diff "className=" = false →
      jsIncludes diff "import " = false →
      jsIncludes diff "export default" = false →
      (jsIncludes diff "//" || jsIncludes diff "/*") = false →
      analyzeModifiedFile env f = "update React component") := by
  have hb : (jsEndsWith f ".tsx" || jsEndsWith f ".jsx") = true := by
    rcases hext with h | h <;> simp [h]
  unfold analyzeModifiedFile
  rw [hdiff]
  refine ⟨?_, ?_, ?_, ?_, ?_⟩ <;> intros <;> simp_all

/-- C5 witness: a diff carrying both the styling and the import marker is
labelled styling. -/
theorem analyzeModifiedFile_marker_order_witness :
    analyzeModifiedFile envRead "a.tsx" = "update component styling" :=
  (analyzeModifiedFile_marker_order envRead "a.tsx" "className= import x" rfl
    (Or.inl (by decide))).1 (by decide)

/-- C6: an empty status input yields the sentinel without the assembler
running, and a ChangeSet that was built (all four keys present) but whose
categories are all empty yields the assembler fallback, not the
sentinel. -/
theorem sentinel_vs_fallback (env : Env) (status : String) :
    generateCommitMessage env "" = "No changes to commit" ∧
    (status ≠ "" →
      (analyzeFileChanges env status).changes = some ⟨[], [], [], []⟩ →
      generateCommitMessage env status = "Update project files") := by
  constructor
  · rfl
  · intro h1 h2
    unfold generateCommitMessage
    dsimp only
    rw [h2]
    rfl

/-- C6 witness: empty status and an untracked-only status. -/
theorem sentinel_vs_fallback_witness :
    generateCommitMessage env0 "" = "No changes to commit" ∧
    generateCommitMessage env0 "?? x" = "Update project files" :=
  ⟨(sentinel_vs_fallback env0 "?? x").1,
   (sentinel_vs_fallback env0 "?? x").2 (by decide) (by decide)⟩

/-- C7: per-file analysis failures are recovered locally: an unreadable
added file is labelled "new file", a failing diff is labelled
"update file", and the categorization of the remaining files is entirely
independent of the per-file effects, so the run continues. -/
theorem perFile_failures_recovered :
    (∀ (env : Env) (f : String), env.readFile f = none →
      analyzeNewFile env f = "new file") ∧
    (∀ (env : Env) (f : String), env.gitDiff f = none →
      analyzeModifiedFile env f = "update file") ∧
    (∀ (env env' : Env) (status : String),
      (analyzeFileChanges env status).changes
        = (analyzeFileChanges env' status).changes) := by
  refine ⟨?_, ?_, ?_⟩
  · intro env f h
    unfold analyzeNewFile
    rw [h]
  · intro env f h
    unfold analyzeModifiedFile
    rw [h]
  · intro env env' status
    unfold analyzeFileChanges
    by_cases hs : status = ""
    · rw [if_pos hs, if_pos hs]
    · rw [if_neg hs, if_neg hs]
      dsimp only
      exact congrArg some
        (foldl_processLine_fst_env env env' (statusLines status) _ _ rfl)

/-- C7 witness: failing reads and diffs on concrete inputs. -/
theorem perFile_failures_recovered_witness :
    analyzeNewFile env0 "a.tsx" = "new file" ∧
    analyzeModifiedFile env0 "a.tsx" = "update file" ∧
    (analyzeFileChanges env0 "A  a.tsx").changes
      = (analyzeFileChanges envRead "A  a.tsx").changes :=
  ⟨perFile_failures_recovered.1 env0 "a.tsx" rfl,
   perFile_failures_recovered.2.1 env0 "a.tsx" rfl,
   perFile_failures_recovered.2.2 env0 envRead "A  a.tsx"⟩

/-- C8: the end-to-end scenario: an added readable marker-free .tsx file
and a modified package.json whose diff carries the dependencies-section
marker produce exactly the two-line message with these emoji, singular
counts and per-file labels. -/
theorem endToEnd_message (env : Env) (content diff : String)
    (h1 : env.readFile "src/Button.tsx" = some content)
    (h2 : jsIncludes content "export default function" = false)
    (h3 : jsIncludes content "export default class" = false)
    (h4 : env.gitDiff "package.json" = some diff)
    (h5 : jsIncludes diff "\"dependencies\"" = true) :
    generateCommitMessage env "A  src/Button.tsx\nM  package.json"
      = "✨ Add 1 new file: new React component\n🔧 Update 1 file: update dependencies" := by
  have hNew : analyzeNewFile env "src/Button.tsx" = "new React component" := by
    unfold analyzeNewFile
    rw [h1]
    simp [h2, h3,
      (by decide : (jsEndsWith "src/Button.tsx" ".tsx"
        || jsEndsWith "src/Button.tsx" ".jsx") = true)]
  have hMod : analyzeModifiedFile env "package.json" = "update dependencies" := by
    unfold analyzeModifiedFile
    rw [h4]
    simp [h5,
      (by decide : jsEndsWith "package.json" ".tsx" = false),
      (by decide : jsEndsWith "package.json" ".jsx" = false),
      (by decide : jsEndsWith "package.json" ".json" = true)]
  have hA : analyzeFileChanges env "A  src/Button.tsx\nM  package.json"
      = ⟨some ⟨["src/Button.tsx"], ["package.json"], [], []⟩,
          [("src/Button.tsx", analyzeNewFile env "src/Button.tsx"),
           ("package.json", analyzeModifiedFile env "package.json")]⟩ := rfl
  rw [show generateCommitMessage env "A  src/Button.tsx\nM  package.json"
      = buildMessage ⟨["src/Button.tsx"], ["package.json"], [], []⟩
          [("src/Button.tsx", analyzeNewFile env "src/Button.tsx"),
           ("package.json", analyzeModifiedFile env "package.json")] from by
    unfold generateCommitMessage
    rw [hA]]
  rw [hNew, hMod]
  decide

/-- C8 witness: the scenario run in a concrete environment. -/
theorem endToEnd_message_witness :
    generateCommitMessage envDemo "A  src/Button.tsx\nM  package.json"
      = "✨ Add 1 new file: new React component\n🔧 Update 1 file: update dependencies" :=
  endToEnd_message envDemo "const Button = 1" "+  \"dependencies\": x"
    rfl (by decide) (by decide) rfl (by decide)

/-- C10: a non-empty status whose lines all match none of the recognized
codes yields the assembler fallback "Update project files"; the sentinel
"No changes to commit" is returned exactly when the status text is empty,
which is exactly when analyzeFileChanges returns the object with no
category keys. -/
theorem sentinel_exactly_when_empty :
    (∀ (env : Env) (status : String), status ≠ "" →
      (∀ l ∈ statusLines status, recognizedCode l = false) →
      generateCommitMessage env status = "Update project files") ∧
    (∀ (env : Env) (status : String),
      generateCommitMessage env status = "No changes to commit"
        ↔ status = "") ∧
    (∀ (env : Env) (status : String),
      (analyzeFileChanges env status).changes = none ↔ status = "") := by
  refine ⟨?_, ?_, ?_⟩
  · intro env status h1 h2
    unfold generateCommitMessage analyzeFileChanges
    rw [if_neg h1]
    dsimp only
    rw [foldl_processLine_unrecognized env _ _ h2]
    rfl
  · intro env status
    constructor
    · intro h
      by_contra hs
      unfold generateCommitMessage analyzeFileChanges at h
      rw [if_neg hs] at h
      dsimp only at h
      rw [buildMessage_eq_assembleSpec] at h
      exact assembleSpec_ne_sentinel _ _ h
    · intro h
      subst h
      rfl
  · intro env status
    unfold analyzeFileChanges
    by_cases hs : status = "" <;> simp [hs]

/-- C10 witness: an untracked-only status and the empty status. -/
theorem sentinel_exactly_when_empty_witness :
    generateCommitMessage env0 "?? a" = "Update project files" ∧
    (generateCommitMessage env0 "" = "No changes to commit"
      ↔ ("" : String) = "") ∧
    ((analyzeFileChanges env0 "?? a").changes = none
      ↔ ("?? a" : String) = "") :=
  ⟨sentinel_exactly_when_empty.1 env0 "?? a" (by decide) (by decide),
   sentinel_exactly_when_empty.2.1 env0 "",
   sentinel_exactly_when_empty.2.2 env0 "?? a"⟩

end GitWorkflow

namespace Bootstrap

/-- C9: when the hosting CLI version check fails the bootstrap exits with
status 1 and no repository-creation attempt is made; the same fatal exit
without a creation attempt occurs when the CLI is present but the session
is unauthenticated. -/
theorem bootstrap_precondition_failures (env : BootstrapEnv) :
    (env.ghVersionOk = false → bootstrapMain env = ⟨1, false⟩) ∧
    (env.ghVersionOk = true → env.ghAuthOk = false →
      bootstrapMain env = ⟨1, false⟩) := by
  constructor
  · intro h
    unfold bootstrapMain checkGitHubCLI
    rw [h]
    rfl
  · intro h1 h2
    unfold bootstrapMain checkGitHubCLI checkGitHubAuth
    rw [h1, h2]
    rfl

/-- C9 witness: the CLI-absent and the unauthenticated environment. -/
theorem bootstrap_precondition_failures_witness :
    bootstrapMain ⟨false, true, true, true⟩ = ⟨1, false⟩ ∧
    bootstrapMain ⟨true, false, true, true⟩ = ⟨1, false⟩ :=
  ⟨(bootstrap_precondition_failures ⟨false, true, true, true⟩).1 rfl,
   (bootstrap_precondition_failures ⟨true, false, true, true⟩).2 rfl rfl⟩

end Bootstrap
